import Mathlib

/-!
Verification of the T-klix conversational-agent repository.

The development shallowly embeds the pieces of the repository that the
verified properties are about:

* the Nemo backend turn pipeline (`core/memory.py` and `server.py` as laid
  out in the implementation plan document): memory retrieval, system-prompt
  construction, LLM invocation, reply construction, and the fire-and-forget
  background persistence task;
* the React frontend (`App.tsx`, `InputBar.tsx`, `useNemoSocket.ts`):
  transcript handling, response de-duplication, input sending, and the
  WebSocket reconnection policy;
* components of the agent core whose sources are documented but not shipped
  (AgentLoop tool rounds, ContextWindow, ToolRegistry); those definitions
  are modelled from the specification text and are marked as such.

External capabilities (the Mem0 memory provider, the LLM, TTS synthesis,
tool executors) are function parameters, so every theorem quantifies over
their behaviour.
-/

namespace Spec2Proof

/-! ## Nemo backend: memory service and the WebSocket turn (server.py sketch) -/

/-- Failure of the external Mem0 memory provider (timeout or provider error). -/
inductive MemErr
  | timeout
  | providerError
deriving DecidableEq, Repr

/-- `MemoryService.get_context`: calls the external search capability
(`self.m.search`, abstracted as the `search` parameter) and joins the
returned memory strings with newlines.  The body contains no exception
handler, so a provider failure propagates to the caller; `Except`
models Python exception propagation. -/
def get_context (search : String → Except MemErr (List String)) (text : String) :
    Except MemErr String := do
  let memories ← search text
  pure (String.intercalate "\n" memories)

/-- The system prompt built in `websocket_endpoint` step 3: the Shanaya
persona text with the recalled memory block interpolated into the
RELEVANT MEMORIES section. -/
def system_prompt_of (past_context : String) : String :=
  "\n            You are Shanaya, a sassy and empathetic friend.\n\n            RELEVANT MEMORIES (Use these to personalize the chat):\n            "
    ++ past_context
    ++ "\n\n            Keep responses short (under 2 sentences) and conversational.\n            "

/-- The JSON object sent back to the client by `websocket.send_json`:
fields `audio`, `text`, `visemes`. -/
structure NemoReply where
  audio : String
  text : String
  visemes : List String
deriving DecidableEq, Repr

/-- Everything one iteration of `websocket_endpoint` computes for a turn:
the two arguments passed to `llm.generate` and the reply sent to the
client. -/
structure TurnSent where
  llm_user_arg : String
  llm_system_arg : String
  reply : NemoReply
deriving DecidableEq, Repr

/-- One turn of `websocket_endpoint` (steps 2-5): retrieve memory context,
build the system prompt, call `llm.generate(user_text, system_prompt)`,
synthesize audio, and build the reply object `{audio, text, visemes}`.
A memory-provider failure propagates (there is no handler between
`self.m.search` and the connection-level `except`). -/
def websocket_turn (search : String → Except MemErr (List String))
    (llm : String → String → String) (tts : String → String)
    (user_text : String) : Except MemErr TurnSent := do
  let past_context ← get_context search user_text
  let system_prompt := system_prompt_of past_context
  let response_text := llm user_text system_prompt
  let audio_b64 := tts response_text
  pure { llm_user_arg := user_text
         llm_system_arg := system_prompt
         reply := { audio := audio_b64, text := response_text, visemes := [] } }

/-! ## Frontend transcript (App.tsx / ChatPanel.tsx) -/

/-- Roles of transcript entries (`Message.role` in ChatPanel.tsx). -/
inductive ChatRole
  | user
  | nemo
deriving DecidableEq, Repr

/-- A transcript entry as kept in the App `messages` state (ids and
timestamps omitted: they carry no content). -/
structure ChatMessage where
  role : ChatRole
  content : String
deriving DecidableEq, Repr

/-- `handleSend` in App.tsx: append a user message holding exactly the
text that was typed, and hand the same text to `sendMessage` (returned as
the second component). -/
def handleSendApp (messages : List ChatMessage) (text : String) :
    List ChatMessage × String :=
  (messages ++ [{ role := ChatRole.user, content := text }], text)

/-- Claim C1: for every non-command user turn, the memory-context block sent
to the LLM never appears in the user-facing transcript: the transcript user
entry is exactly the original unaugmented user text, the user-message
argument given to the LLM is also the unaugmented text (the memory block
travels only in the system-prompt argument), and the reply text returned to
the caller is the LLM response verbatim, with no injected block attached. -/
theorem memory_context_not_user_visible
    (search : String → Except MemErr (List String))
    (llm : String → String → String) (tts : String → String)
    (user_text : String) (messages : List ChatMessage) (o : TurnSent)
    (h : websocket_turn search llm tts user_text = Except.ok o) :
    (handleSendApp messages user_text).1
        = messages ++ [{ role := ChatRole.user, content := user_text }]
      ∧ o.llm_user_arg = user_text
      ∧ o.reply.text = llm user_text o.llm_system_arg := by
  refine ⟨rfl, ?_⟩
  cases hs : search user_text with
  | error e =>
      simp [websocket_turn, get_context, hs] at h
  | ok ms =>
      simp [websocket_turn, get_context, hs] at h
      subst h
      exact ⟨rfl, rfl⟩

/-- A stub memory search returning one semantic fact. -/
def searchStub : String → Except MemErr (List String) :=
  fun _ => Except.ok ["deadline is Friday"]

/-- A stub LLM that echoes its user-message argument. -/
def llmStub : String → String → String := fun u _ => u

/-- A stub TTS that returns a fixed payload. -/
def ttsStub : String → String := fun _ => "QUJD"

/-- The turn output produced by the stubs on input "hi". -/
def turnStub : TurnSent :=
  { llm_user_arg := "hi"
    llm_system_arg := system_prompt_of "deadline is Friday"
    reply := { audio := "QUJD", text := "hi", visemes := [] } }

theorem memory_context_not_user_visible_witness :
    (handleSendApp [] "hi").1 = [] ++ [{ role := ChatRole.user, content := "hi" }]
      ∧ turnStub.llm_user_arg = "hi"
      ∧ turnStub.reply.text = llmStub "hi" turnStub.llm_system_arg :=
  memory_context_not_user_visible searchStub llmStub ttsStub "hi" [] turnStub rfl

/-- A memory search capability that fails with a provider error. -/
def searchFail : String → Except MemErr (List String) :=
  fun _ => Except.error MemErr.providerError

/-! ## Background memory persistence (asyncio.create_task of async_save_memory)

After `send_json` delivers the reply, `websocket_endpoint` step 6 calls
`asyncio.create_task(async_save_memory(user_text, response_text))`.
`async_save_memory` contains no `await`, so once the event loop starts a
persist task it runs to completion atomically, and tasks start in creation
order.  The event loop is therefore modelled as a FIFO queue of pending
persist jobs that may be drained at any point between turns. -/

/-- One background persistence job: the pair handed to
`memory_service.save_interaction`. -/
structure PersistJob where
  user_text : String
  agent_text : String
deriving DecidableEq, Repr

/-- The per-connection server state relevant to persistence: the FIFO of
created-but-not-yet-run persist tasks and the log of `save_interaction`
calls actually executed, in execution order. -/
structure ServerState where
  pending : List PersistJob
  memoryLog : List PersistJob
deriving DecidableEq, Repr

/-- One iteration of the `websocket_endpoint` receive loop: run the turn,
send the reply (the second component — delivered before any persistence
happens), and enqueue the persist task for the turn.  A failed turn sends
nothing and enqueues nothing. -/
def websocket_iteration (search : String → Except MemErr (List String))
    (llm : String → String → String) (tts : String → String)
    (st : ServerState) (user_text : String) : ServerState × Option NemoReply :=
  match websocket_turn search llm tts user_text with
  | Except.error _ => (st, none)
  | Except.ok o =>
      ({ st with pending := st.pending
            ++ [{ user_text := user_text, agent_text := o.reply.text }] },
       some o.reply)

/-- The event loop runs some number of pending persist tasks, oldest first,
each to completion. -/
def run_some (st : ServerState) (k : Nat) : ServerState :=
  { pending := st.pending.drop k, memoryLog := st.memoryLog ++ st.pending.take k }

/-- Run every still-pending persist task. -/
def drain (st : ServerState) : ServerState :=
  run_some st st.pending.length

/-- A whole session: each step is one received user text followed by the
event loop executing `k` pending persist tasks (an arbitrary background
schedule). -/
def websocket_session (search : String → Except MemErr (List String))
    (llm : String → String → String) (tts : String → String) :
    ServerState → List (String × Nat) → ServerState
  | st, [] => st
  | st, (t, k) :: rest =>
      websocket_session search llm tts
        (run_some (websocket_iteration search llm tts st t).1 k) rest

/-- The persist jobs a list of user turns gives rise to, in turn order
(failed turns enqueue nothing). -/
def turn_jobs (search : String → Except MemErr (List String))
    (llm : String → String → String) (tts : String → String)
    (texts : List String) : List PersistJob :=
  texts.filterMap fun t =>
    match websocket_turn search llm tts t with
    | Except.error _ => none
    | Except.ok o => some { user_text := t, agent_text := o.reply.text }

lemma run_some_log_append (st : ServerState) (k : Nat) :
    (run_some st k).memoryLog ++ (run_some st k).pending
      = st.memoryLog ++ st.pending := by
  simp [run_some]

lemma websocket_session_log (search : String → Except MemErr (List String))
    (llm : String → String → String) (tts : String → String) :
    ∀ (steps : List (String × Nat)) (st : ServerState),
      (websocket_session search llm tts st steps).memoryLog
          ++ (websocket_session search llm tts st steps).pending
        = st.memoryLog ++ st.pending
            ++ turn_jobs search llm tts (steps.map Prod.fst) := by
  intro steps
  induction steps with
  | nil => intro st; simp [websocket_session, turn_jobs]
  | cons step rest ih =>
      intro st
      obtain ⟨t, k⟩ := step
      cases hw : websocket_turn search llm tts t with
      | error e =>
          simp [websocket_session, websocket_iteration, hw, ih, turn_jobs,
            run_some_log_append, List.filterMap_cons]
      | ok o =>
          have h1 := ih (run_some (websocket_iteration search llm tts st t).1 k)
          rw [websocket_session, h1, run_some_log_append]
          simp [websocket_iteration, hw, turn_jobs, List.filterMap_cons]

/-- Claim C5: memory persistence is fire-and-forget and serialized.  The
reply delivered to the caller is exactly the turn's critical-path output —
it does not depend on the persistence state, so a pending or failing
persist task can neither block nor fail the turn — and for any background
schedule (any interleaving `k` of task executions between turns), after the
queue drains, the memory writes appear exactly once per completed turn and
in turn order: turn N's write is never reordered after turn N+1's. -/
theorem persist_background_ordered (search : String → Except MemErr (List String))
    (llm : String → String → String) (tts : String → String) :
    (∀ (st : ServerState) (t : String),
        (websocket_iteration search llm tts st t).2
          = (websocket_turn search llm tts t).toOption.map (fun o => o.reply))
    ∧ ∀ (steps : List (String × Nat)),
        (drain (websocket_session search llm tts
            { pending := [], memoryLog := [] } steps)).memoryLog
          = turn_jobs search llm tts (steps.map Prod.fst) := by
  constructor
  · intro st t
    cases hw : websocket_turn search llm tts t with
    | error e => simp [websocket_iteration, hw, Except.toOption]
    | ok o => simp [websocket_iteration, hw, Except.toOption]
  · intro steps
    have h := websocket_session_log search llm tts steps
      { pending := [], memoryLog := [] }
    simp only [List.nil_append] at h
    simp [drain, run_some, h]

/-! ## AgentLoop tool rounds -/

/-- Modelled from the spec: the AgentLoop tool-round machinery lives in
`main.py`, which is not among the provided sources (only the architecture
document describes it).  An LLM response either is plain text or carries
tool calls (§4.5). -/
inductive LlmReply
  | text (s : String)
  | toolCalls (names : List String)
deriving DecidableEq, Repr

/-- Modelled from the spec: the outcome of a turn — a final answer, or the
degraded ToolLoopExceeded answer stating that the round limit was hit. -/
inductive TurnOutcome
  | final (s : String)
  | toolLoopExceeded (s : String)
deriving DecidableEq, Repr

/-- Modelled from the spec (§4.5): call the LLM with the current round
number; plain text finalizes the turn; tool calls increment `round_count`,
and if it exceeds the configured maximum the turn aborts with the degraded
answer, otherwise the loop calls the LLM again.  Returns the outcome and
the number of LLM invocations made. -/
def run_rounds (llm : Nat → LlmReply) (max_rounds : Nat) (round_count : Nat) :
    TurnOutcome × Nat :=
  match llm round_count with
  | LlmReply.text s => (TurnOutcome.final s, 1)
  | LlmReply.toolCalls _ =>
      if h : max_rounds < round_count + 1 then
        (TurnOutcome.toolLoopExceeded "tool round limit hit", 1)
      else
        let r := run_rounds llm max_rounds (round_count + 1)
        (r.1, r.2 + 1)
termination_by max_rounds + 1 - round_count
decreasing_by omega

lemma run_rounds_count_le (llm : Nat → LlmReply) (max_rounds : Nat) :
    ∀ (fuel round_count : Nat), max_rounds + 1 - round_count ≤ fuel →
      (run_rounds llm max_rounds round_count).2 ≤ max_rounds + 1 - round_count
        ∨ (run_rounds llm max_rounds round_count).2 = 1 := by
  intro fuel
  induction fuel with
  | zero =>
      intro rc hrc
      rw [run_rounds]
      cases llm rc with
      | text s => simp
      | toolCalls ns =>
          have : max_rounds < rc + 1 := by omega
          simp [this]
  | succ n ih =>
      intro rc hrc
      rw [run_rounds]
      cases llm rc with
      | text s => simp
      | toolCalls ns =>
          by_cases hlt : max_rounds < rc + 1
          · simp [hlt]
          · simp only [hlt, dite_false]
            have h2 := ih (rc + 1) (by omega)
            left
            rcases h2 with h2 | h2 <;> omega

lemma run_rounds_always_tools (llm : Nat → LlmReply)
    (hstub : ∀ r, ∃ ns, llm r = LlmReply.toolCalls ns) (max_rounds : Nat) :
    ∀ (fuel round_count : Nat), max_rounds + 1 - round_count ≤ fuel →
      (run_rounds llm max_rounds round_count).1
        = TurnOutcome.toolLoopExceeded "tool round limit hit" := by
  intro fuel
  induction fuel with
  | zero =>
      intro rc hrc
      obtain ⟨ns, hns⟩ := hstub rc
      rw [run_rounds]
      have : max_rounds < rc + 1 := by omega
      simp [hns, this]
  | succ n ih =>
      intro rc hrc
      obtain ⟨ns, hns⟩ := hstub rc
      rw [run_rounds]
      by_cases hlt : max_rounds < rc + 1
      · simp [hns, hlt]
      · simp only [hns, hlt, dite_false]
        exact ih (rc + 1) (by omega)

/-- Claim C2: the number of LLM round-trips in a turn is bounded — at most
`max_rounds + 1` invocations (the initial call plus one per permitted tool
round), so `round_count` can never exceed the configured maximum without
the turn immediately terminating — and a stub LLM that always requests
another tool call always yields the terminal degraded ToolLoopExceeded
answer, never an infinite loop. -/
theorem tool_rounds_bounded (llm : Nat → LlmReply) (max_rounds : Nat) :
    (run_rounds llm max_rounds 0).2 ≤ max_rounds + 1
    ∧ ((∀ r, ∃ ns, llm r = LlmReply.toolCalls ns) →
        (run_rounds llm max_rounds 0).1
          = TurnOutcome.toolLoopExceeded "tool round limit hit") := by
  constructor
  · have h := run_rounds_count_le llm max_rounds (max_rounds + 1) 0 (by omega)
    rcases h with h | h <;> omega
  · intro hstub
    exact run_rounds_always_tools llm hstub max_rounds (max_rounds + 1) 0 (by omega)

/-- An LLM stub that always requests another tool call. -/
def llmAlwaysTools : Nat → LlmReply := fun _ => LlmReply.toolCalls ["ls"]

theorem tool_rounds_bounded_witness :
    (run_rounds llmAlwaysTools 3 0).2 ≤ 3 + 1
    ∧ (run_rounds llmAlwaysTools 3 0).1
        = TurnOutcome.toolLoopExceeded "tool round limit hit" :=
  ⟨(tool_rounds_bounded llmAlwaysTools 3).1,
   (tool_rounds_bounded llmAlwaysTools 3).2 (fun _ => ⟨["ls"], rfl⟩)⟩

/-- Claim C4 (behaviour of the code at the failing input): when the memory
provider raises during retrieval, the exception propagates out of
`get_context`, so the turn yields no reply at all — the only handler is the
connection-level `except` around the whole receive loop, which logs the
error and ends the session.  The turn therefore does not complete, contrary
to the specified degrade-to-empty-context behaviour. -/
theorem memory_failure_kills_turn :
    websocket_turn searchFail llmStub ttsStub "hello"
      = Except.error MemErr.providerError := rfl

/-! ## ContextWindow -/

/-- Message roles of the agent-core data model (§3). -/
inductive Role
  | system
  | user
  | assistant
  | tool
deriving DecidableEq, Repr

/-- A history message; the content is all the cost function may depend on,
so tool-call payloads are folded into it. -/
structure Msg where
  role : Role
  content : String
deriving DecidableEq, Repr

/-- Whether a message is the standing system instruction. -/
def Msg.isSystem (m : Msg) : Bool := m.role == Role.system

/-- Cumulative cost of a history under the injectable cost function. -/
def histCost (cost : Msg → Nat) (l : List Msg) : Nat := (l.map cost).sum

/-- The non-system part of a history. -/
def nonSystem (l : List Msg) : List Msg := l.filter (fun m => !m.isSystem)

/-- Modelled from the spec (§4.1): ContextWindow eviction.  `ContextWindow`
itself lives in the agent core (`main.py`), which is not among the provided
sources; this follows the specified behaviour: while the cumulative cost
exceeds the budget, the oldest non-system message is evicted, in insertion
order, until the budget is satisfied; the system instruction is never
evicted (`kept` records that a system message has already been retained
further up, so the history cannot become empty); and when nothing retained
precedes it, the final remaining message is retained anyway even if it
alone exceeds the budget — no budget can force a zero-length history. -/
def evictAux (cost : Msg → Nat) (budget : Nat) (kept : Bool) : List Msg → List Msg
  | [] => []
  | m :: rest =>
      if histCost cost (m :: rest) ≤ budget then m :: rest
      else if m.isSystem then m :: evictAux cost (budget - cost m) true rest
      else if kept = false ∧ rest = [] then [m]
      else evictAux cost budget kept rest

/-- Eviction of a whole history: nothing has been retained upstream yet. -/
def evict (cost : Msg → Nat) (budget : Nat) (l : List Msg) : List Msg :=
  evictAux cost budget false l

/-- Modelled from the spec (§4.1): `ContextWindow.append` — append the
message to the tail of the history, then evict until the budget is
satisfied. -/
def cwAppend (cost : Msg → Nat) (budget : Nat) (h : List Msg) (m : Msg) :
    List Msg :=
  evict cost budget (h ++ [m])

lemma histCost_cons (cost : Msg → Nat) (m : Msg) (l : List Msg) :
    histCost cost (m :: l) = cost m + histCost cost l := by
  simp [histCost]

lemma histCost_eq_zero (cost : Msg → Nat) (hpos : ∀ x, 0 < cost x)
    (l : List Msg) (h : histCost cost l = 0) : l = [] := by
  cases l with
  | nil => rfl
  | cons m rest =>
      exfalso
      have := hpos m
      rw [histCost_cons] at h
      omega

lemma evictAux_true_budget (cost : Msg → Nat) (hpos : ∀ x, 0 < cost x) :
    ∀ (l : List Msg) (budget : Nat),
      histCost cost (evictAux cost budget true l) ≤ budget
        ∨ nonSystem (evictAux cost budget true l) = [] := by
  intro l
  induction l with
  | nil => intro budget; left; simp [evictAux, histCost]
  | cons m rest ih =>
      intro budget
      rw [evictAux]
      by_cases hg : histCost cost (m :: rest) ≤ budget
      · simp only [if_pos hg]
        exact Or.inl hg
      · simp only [if_neg hg]
        by_cases hsys : m.isSystem = true
        · simp only [if_pos hsys]
          rcases ih (budget - cost m) with hle | hns
          · by_cases hcm : cost m ≤ budget
            · left
              rw [histCost_cons]
              omega
            · right
              have hz : histCost cost (evictAux cost (budget - cost m) true rest) = 0 := by
                omega
              have he : evictAux cost (budget - cost m) true rest = [] :=
                histCost_eq_zero cost hpos _ hz
              simp [nonSystem, he, hsys]
          · right
            simpa [nonSystem, hsys] using hns
        · have hguard : ¬ (true = false ∧ rest = ([] : List Msg)) := by simp
          simp only [if_neg hsys, if_neg hguard]
          exact ih budget

lemma evictAux_false_budget (cost : Msg → Nat) (hpos : ∀ x, 0 < cost x) :
    ∀ (l : List Msg) (budget : Nat),
      histCost cost (evictAux cost budget false l) ≤ budget
        ∨ nonSystem (evictAux cost budget false l) = []
        ∨ ∃ x pre, l = pre ++ [x] ∧ evictAux cost budget false l = [x]
            ∧ budget < cost x ∧ x.isSystem = false := by
  intro l
  induction l with
  | nil => intro budget; left; simp [evictAux, histCost]
  | cons m rest ih =>
      intro budget
      rw [evictAux]
      by_cases hg : histCost cost (m :: rest) ≤ budget
      · simp only [if_pos hg]
        exact Or.inl hg
      · simp only [if_neg hg]
        by_cases hsys : m.isSystem = true
        · simp only [if_pos hsys]
          rcases evictAux_true_budget cost hpos rest (budget - cost m) with hle | hns
          · by_cases hcm : cost m ≤ budget
            · left
              rw [histCost_cons]
              omega
            · right; left
              have hz : histCost cost (evictAux cost (budget - cost m) true rest) = 0 := by
                omega
              have he : evictAux cost (budget - cost m) true rest = [] :=
                histCost_eq_zero cost hpos _ hz
              simp [nonSystem, he, hsys]
          · right; left
            simpa [nonSystem, hsys] using hns
        · have hm0 : m.isSystem = false := by simpa using hsys
          simp only [if_neg hsys]
          by_cases hrest : rest = ([] : List Msg)
          · subst hrest
            right; right
            refine ⟨m, [], rfl, by simp, ?_, hm0⟩
            rw [histCost_cons] at hg
            simp only [histCost, List.map_nil, List.sum_nil] at hg
            omega
          · simp only [true_and, if_neg hrest]
            rcases ih budget with h1 | h2 | h3
            · exact Or.inl h1
            · exact Or.inr (Or.inl h2)
            · right; right
              obtain ⟨x, pre, hl, hr, hbx, hxs⟩ := h3
              exact ⟨x, m :: pre, by rw [hl, List.cons_append], hr, hbx, hxs⟩

lemma evictAux_system_preserved (cost : Msg → Nat) :
    ∀ (l : List Msg) (budget : Nat) (kept : Bool),
      (evictAux cost budget kept l).filter (fun x => x.isSystem)
        = l.filter (fun x => x.isSystem) := by
  intro l
  induction l with
  | nil => intro budget kept; simp [evictAux]
  | cons m rest ih =>
      intro budget kept
      rw [evictAux]
      by_cases hg : histCost cost (m :: rest) ≤ budget
      · simp only [if_pos hg]
      · simp only [if_neg hg]
        by_cases hsys : m.isSystem = true
        · simp only [if_pos hsys]
          simp [List.filter_cons, hsys, ih]
        · have hm0 : m.isSystem = false := by simpa using hsys
          simp only [if_neg hsys]
          by_cases hguard : kept = false ∧ rest = ([] : List Msg)
          · obtain ⟨hk, hr⟩ := hguard
            subst hr
            subst hk
            simp
          · simp only [if_neg hguard]
            simp [List.filter_cons, hm0, ih]

lemma evictAux_sublist (cost : Msg → Nat) :
    ∀ (l : List Msg) (budget : Nat) (kept : Bool),
      (evictAux cost budget kept l).Sublist l := by
  intro l
  induction l with
  | nil => intro budget kept; simp [evictAux]
  | cons m rest ih =>
      intro budget kept
      rw [evictAux]
      by_cases hg : histCost cost (m :: rest) ≤ budget
      · simp only [if_pos hg]
        exact List.Sublist.refl _
      · simp only [if_neg hg]
        by_cases hsys : m.isSystem = true
        · simp only [if_pos hsys]
          exact List.Sublist.cons₂ m (ih (budget - cost m) true)
        · simp only [if_neg hsys]
          by_cases hguard : kept = false ∧ rest = ([] : List Msg)
          · obtain ⟨hk, hr⟩ := hguard
            subst hr
            subst hk
            simp
          · simp only [if_neg hguard]
            exact List.Sublist.cons m (ih budget kept)

lemma evictAux_nonSystem_drop (cost : Msg → Nat) :
    ∀ (l : List Msg) (budget : Nat) (kept : Bool),
      ∃ k, nonSystem (evictAux cost budget kept l) = (nonSystem l).drop k := by
  intro l
  induction l with
  | nil => intro budget kept; exact ⟨0, by simp [evictAux]⟩
  | cons m rest ih =>
      intro budget kept
      rw [evictAux]
      by_cases hg : histCost cost (m :: rest) ≤ budget
      · exact ⟨0, by simp only [if_pos hg, List.drop_zero]⟩
      · simp only [if_neg hg]
        by_cases hsys : m.isSystem = true
        · obtain ⟨k, hk⟩ := ih (budget - cost m) true
          refine ⟨k, ?_⟩
          simp only [if_pos hsys]
          simpa [nonSystem, List.filter_cons, hsys] using hk
        · have hm0 : m.isSystem = false := by simpa using hsys
          simp only [if_neg hsys]
          by_cases hguard : kept = false ∧ rest = ([] : List Msg)
          · obtain ⟨hk, hr⟩ := hguard
            subst hr
            subst hk
            refine ⟨0, ?_⟩
            simp
          · simp only [if_neg hguard]
            obtain ⟨k, hk⟩ := ih budget kept
            refine ⟨k + 1, ?_⟩
            have hns : nonSystem (m :: rest) = m :: nonSystem rest := by
              simp [nonSystem, List.filter_cons, hm0]
            rw [hns, List.drop_succ_cons]
            exact hk

/-- Claim C3: after every append, either the cumulative cost of the
retained history is within the budget, or a single message — the appended
one, or the standing system instruction — alone exceeds the budget and is
then retained alone.  Eviction never removes the system instruction, never
reorders the history (the result is a sublist of the append log), and
removes only the oldest non-system messages, from the head, in insertion
order (the surviving non-system messages are a suffix of the appended
non-system sequence).  Histories carry at most one system instruction
(§3: history is seeded with the standing system instruction) and
per-message costs are positive (message counts or token estimates). -/
theorem context_window_append_spec (cost : Msg → Nat) (budget : Nat)
    (h : List Msg) (m : Msg) (hpos : ∀ x, 0 < cost x)
    (hm : m.isSystem = false)
    (hone : (h.filter (fun x => x.isSystem)).length ≤ 1) :
    (histCost cost (cwAppend cost budget h m) ≤ budget
        ∨ ∃ x, cwAppend cost budget h m = [x] ∧ budget < cost x
            ∧ (x = m ∨ x.isSystem = true))
    ∧ (cwAppend cost budget h m).filter (fun x => x.isSystem)
        = (h ++ [m]).filter (fun x => x.isSystem)
    ∧ (cwAppend cost budget h m).Sublist (h ++ [m])
    ∧ ∃ k, nonSystem (cwAppend cost budget h m) = (nonSystem (h ++ [m])).drop k := by
  have hpres : (cwAppend cost budget h m).filter (fun x => x.isSystem)
      = (h ++ [m]).filter (fun x => x.isSystem) :=
    evictAux_system_preserved cost (h ++ [m]) budget false
  have hsub : (cwAppend cost budget h m).Sublist (h ++ [m]) :=
    evictAux_sublist cost (h ++ [m]) budget false
  have hdrop : ∃ k, nonSystem (cwAppend cost budget h m)
      = (nonSystem (h ++ [m])).drop k :=
    evictAux_nonSystem_drop cost (h ++ [m]) budget false
  refine ⟨?_, hpres, hsub, hdrop⟩
  rcases evictAux_false_budget cost hpos (h ++ [m]) budget with hle | hns | hsing
  · exact Or.inl hle
  · -- every retained message is a system message
    by_cases hover : histCost cost (cwAppend cost budget h m) ≤ budget
    · exact Or.inl hover
    · right
      have hns0 : nonSystem (cwAppend cost budget h m) = [] := hns
      have hall : ∀ x ∈ cwAppend cost budget h m, x.isSystem = true := by
        intro x hx
        have hx0 := List.filter_eq_nil_iff.mp hns0 x hx
        simpa using hx0
      have hself : (cwAppend cost budget h m).filter (fun x => x.isSystem)
          = cwAppend cost budget h m :=
        List.filter_eq_self.mpr hall
      have hlist : cwAppend cost budget h m = h.filter (fun x => x.isSystem) := by
        rw [← hself, hpres]
        simp [List.filter_append, List.filter_cons, hm]
      have hlen : (cwAppend cost budget h m).length ≤ 1 := by
        rw [hlist]
        exact hone
      rcases hcase : cwAppend cost budget h m with _ | ⟨x, tail⟩
      · exfalso
        rw [hcase] at hover
        simp [histCost] at hover
      · cases tail with
        | cons b bs =>
            exfalso
            rw [hcase] at hlen
            simp only [List.length_cons] at hlen
            omega
        | nil =>
            refine ⟨x, rfl, ?_, Or.inr ?_⟩
            · rw [hcase, histCost_cons] at hover
              simp only [histCost, List.map_nil, List.sum_nil] at hover
              omega
            · exact hall x (by rw [hcase]; exact List.mem_singleton_self x)
  · -- an over-budget final message is retained alone; it is the appended one
    obtain ⟨x, pre, hl, hr, hbx, hxs⟩ := hsing
    have hxm : x = m := by
      have h2 := congrArg List.reverse hl
      simp only [List.reverse_append, List.reverse_cons, List.reverse_nil,
        List.nil_append, List.singleton_append, List.cons.injEq] at h2
      exact h2.1.symm
    exact Or.inr ⟨x, hr, hbx, Or.inl hxm⟩

/-- The message-count cost function: every message costs one. -/
def costOne : Msg → Nat := fun _ => 1

/-- A small demonstration history: a system instruction and two turns. -/
def demoHist : List Msg :=
  [{ role := Role.system, content := "be brief" },
   { role := Role.user, content := "hi" },
   { role := Role.assistant, content := "hello" }]

/-- The message appended in the witness. -/
def demoMsg : Msg := { role := Role.user, content := "next question" }

theorem context_window_append_spec_witness :
    (histCost costOne (cwAppend costOne 2 demoHist demoMsg) ≤ 2
        ∨ ∃ x, cwAppend costOne 2 demoHist demoMsg = [x] ∧ 2 < costOne x
            ∧ (x = demoMsg ∨ x.isSystem = true))
    ∧ (cwAppend costOne 2 demoHist demoMsg).filter (fun x => x.isSystem)
        = (demoHist ++ [demoMsg]).filter (fun x => x.isSystem)
    ∧ (cwAppend costOne 2 demoHist demoMsg).Sublist (demoHist ++ [demoMsg])
    ∧ ∃ k, nonSystem (cwAppend costOne 2 demoHist demoMsg)
        = (nonSystem (demoHist ++ [demoMsg])).drop k :=
  context_window_append_spec costOne 2 demoHist demoMsg
    (fun _ => Nat.one_pos) (by decide) (by decide)

/-! ## ToolRegistry -/

/-- A scalar argument value as carried in a tool invocation. -/
inductive ArgVal
  | str (s : String)
  | num (n : Int)
  | bool (b : Bool)
deriving DecidableEq, Repr

/-- Modelled from the spec (§4.3): a declared parameter type. -/
inductive ParamType
  | string
  | integer
  | boolean
deriving DecidableEq, Repr

/-- Modelled from the spec (§4.3): whether a supplied value is coercible to
the declared parameter type: anything coerces to string; integers accept
numbers and numeric strings; booleans accept booleans and the literal
strings true/false. -/
def coercible : ParamType → ArgVal → Bool
  | ParamType.string, _ => true
  | ParamType.integer, ArgVal.num _ => true
  | ParamType.integer, ArgVal.str s => s.toInt?.isSome
  | ParamType.integer, ArgVal.bool _ => false
  | ParamType.boolean, ArgVal.bool _ => true
  | ParamType.boolean, ArgVal.str s => s == "true" || s == "false"
  | ParamType.boolean, ArgVal.num _ => false

/-- Modelled from the spec (§4.3): a declared tool parameter. -/
structure ToolParameter where
  name : String
  ty : ParamType
  required : Bool
  default : Option ArgVal
deriving DecidableEq, Repr

/-- Modelled from the spec (§4.3): a registered tool: name, description,
declared parameters, and the executor capability.  The executor may fail
(`Except` models a raised ToolExecutionError, a file not found, a network
timeout...). -/
structure Tool where
  name : String
  description : String
  parameters : List ToolParameter
  executor : List (String × ArgVal) → Except String String

/-- Modelled from the spec (§4.3): the registry is a table of named tools. -/
structure ToolRegistry where
  tools : List Tool

/-- Error kinds of the §7 taxonomy that `execute` can report. -/
inductive ToolErrKind
  | UnknownTool
  | InvalidArguments
  | ExecutionError
deriving DecidableEq, Repr

/-- Modelled from the spec (§3): a ToolResult carries either an output or
an error. -/
structure ToolResult where
  output : Option String
  error : Option (ToolErrKind × String)
deriving DecidableEq, Repr

/-- Look a tool up by name. -/
def findTool (reg : ToolRegistry) (name : String) : Option Tool :=
  reg.tools.find? (fun t => t.name == name)

/-- Modelled from the spec (§4.3): argument validation — every required
parameter is present, and every supplied value for a declared parameter is
coercible to its declared type. -/
def validArgs (params : List ToolParameter) (args : List (String × ArgVal)) :
    Bool :=
  params.all fun p =>
    match args.lookup p.name with
    | some v => coercible p.ty v
    | none => !p.required

/-- Modelled from the spec (§4.3): `ToolRegistry.execute` — UnknownTool if
the name is not registered, InvalidArguments if validation fails, otherwise
the executor runs and its outcome (success or failure) is wrapped as a
ToolResult.  The function is total: no outcome escapes as a crash. -/
def ToolRegistry.execute (reg : ToolRegistry) (name : String)
    (args : List (String × ArgVal)) : ToolResult :=
  match findTool reg name with
  | none => { output := none, error := some (ToolErrKind.UnknownTool, name) }
  | some t =>
      if validArgs t.parameters args then
        match t.executor args with
        | Except.ok out => { output := some out, error := none }
        | Except.error msg =>
            { output := none, error := some (ToolErrKind.ExecutionError, msg) }
      else { output := none, error := some (ToolErrKind.InvalidArguments, name) }

/-- Claim C6: `execute` always returns a ToolResult with exactly one of
output and error set; an unregistered name yields UnknownTool; failed
validation yields InvalidArguments; otherwise the executor's outcome —
including an executor-level failure — is wrapped as the result.  Totality
of the function is the no-crash guarantee. -/
theorem tool_registry_execute_spec (reg : ToolRegistry) (name : String)
    (args : List (String × ArgVal)) :
    ((ToolRegistry.execute reg name args).output.isSome
        = (ToolRegistry.execute reg name args).error.isNone)
    ∧ (findTool reg name = none →
        (ToolRegistry.execute reg name args).error
          = some (ToolErrKind.UnknownTool, name))
    ∧ (∀ t, findTool reg name = some t → validArgs t.parameters args = false →
        (ToolRegistry.execute reg name args).error
          = some (ToolErrKind.InvalidArguments, name))
    ∧ (∀ t out, findTool reg name = some t → validArgs t.parameters args = true →
        t.executor args = Except.ok out →
        ToolRegistry.execute reg name args = { output := some out, error := none })
    ∧ (∀ t msg, findTool reg name = some t → validArgs t.parameters args = true →
        t.executor args = Except.error msg →
        ToolRegistry.execute reg name args
          = { output := none, error := some (ToolErrKind.ExecutionError, msg) }) := by
  refine ⟨?_, ?_, ?_, ?_, ?_⟩
  · unfold ToolRegistry.execute
    cases hf : findTool reg name with
    | none => simp
    | some t =>
        by_cases hv : validArgs t.parameters args
        · cases he : t.executor args <;> simp [hv, he]
        · simp [hv]
  · intro hf
    simp [ToolRegistry.execute, hf]
  · intro t hf hv
    simp [ToolRegistry.execute, hf, hv]
  · intro t out hf hv he
    simp [ToolRegistry.execute, hf, hv, he]
  · intro t msg hf hv he
    simp [ToolRegistry.execute, hf, hv, he]

/-- A registry holding one tool with one required string parameter whose
executor fails, exercising the error-wrapping path. -/
def demoRegistry : ToolRegistry :=
  { tools := [{ name := "read_file"
                description := "Read file contents"
                parameters := [{ name := "path", ty := ParamType.string,
                                 required := true, default := none }]
                executor := fun _ => Except.error "file not found" }] }

/-- The demonstration arguments. -/
def demoArgs : List (String × ArgVal) := [("path", ArgVal.str "a.txt")]

theorem tool_registry_execute_spec_witness :
    ((ToolRegistry.execute demoRegistry "read_file" demoArgs).output.isSome
        = (ToolRegistry.execute demoRegistry "read_file" demoArgs).error.isNone)
    ∧ ToolRegistry.execute demoRegistry "read_file" demoArgs
        = { output := none, error := some (ToolErrKind.ExecutionError, "file not found") }
    ∧ (ToolRegistry.execute demoRegistry "missing_tool" demoArgs).error
        = some (ToolErrKind.UnknownTool, "missing_tool") := by
  have h1 := tool_registry_execute_spec demoRegistry "read_file" demoArgs
  have h2 := tool_registry_execute_spec demoRegistry "missing_tool" demoArgs
  refine ⟨h1.1, ?_, ?_⟩
  · exact h1.2.2.2.2 ((demoRegistry.tools.get ⟨0, by simp [demoRegistry]⟩)) "file not found"
      (by rfl) (by rfl) (by rfl)
  · exact h2.2.1 (by rfl)

/-! ## Produced front-end interface (part_003 sendMessage, part_001 send_json) -/

/-- The JSON payload `sendMessage` in useNemoSocket.ts sends:
`JSON.stringify({ text })` — a single `text` field, no `user_id`. -/
def sendMessage_payload (text : String) : List (String × String) :=
  [("text", text)]

/-- The JSON payload `websocket.send_json` delivers to the client:
fields `audio`, `text` and `visemes` (the viseme list serialized). -/
def send_json_payload (audio_b64 response_text : String) :
    List (String × String) :=
  [("audio", audio_b64), ("text", response_text), ("visemes", "[]")]

/-- Worded from the spec (§6): a request conforms to the produced-interface
request shape when its fields are drawn from text and user_id and text is
present. -/
def specRequestConforms (fields : List String) : Bool :=
  fields.all (fun f => f == "text" || f == "user_id") && fields.contains "text"

/-- Worded from the spec (§6): a result conforms to the produced-interface
result shape when its fields are drawn from final_text, streamed_deltas and
tool_trace and final_text is present. -/
def specResultConforms (fields : List String) : Bool :=
  fields.all (fun f => f == "final_text" || f == "streamed_deltas" || f == "tool_trace")
    && fields.contains "final_text"

/-- Claim C7 counterexample: the request the front end sends does conform
to the spec's `{text, user_id?}` shape, but the concrete result the server
delivers — `{audio, text, visemes}` — does not conform to the
`{final_text, streamed_deltas?, tool_trace?}` result shape, so the claim
as stated is false. -/
theorem frontend_contract_counterexample :
    specRequestConforms ((sendMessage_payload "hi").map Prod.fst) = true
    ∧ specResultConforms ((send_json_payload "QUJD" "hello").map Prod.fst) = false := by
  decide

/-- Claim C7 as amended: the produced interface takes `{text, user_id?}`
(the front end sends only `text`), but it yields `{audio, text, visemes}`,
with the final answer carried in the `text` field and no streamed_deltas or
tool_trace fields; every sent message conforms to the request shape and
every delivered result has exactly those three fields. -/
theorem frontend_contract_amended (text audio_b64 response_text : String) :
    specRequestConforms ((sendMessage_payload text).map Prod.fst) = true
    ∧ (send_json_payload audio_b64 response_text).map Prod.fst
        = ["audio", "text", "visemes"]
    ∧ (send_json_payload audio_b64 response_text).lookup "text"
        = some response_text := by
  refine ⟨rfl, rfl, rfl⟩

/-! ## App response handling (App.tsx effect on lastResponse) -/

/-- The App state touched by the response effect: the processed-response
ref, the transcript, the audio payloads handed to the player, and the
typing flag. -/
structure AppState where
  processed : Option String
  transcript : List ChatMessage
  played : List String
  isTyping : Bool
deriving DecidableEq, Repr

/-- The App.tsx effect on a received response: a response with empty text
is ignored (`lastResponse.text` is falsy); a response whose text equals the
previously processed one is skipped; otherwise the ref is updated, typing
stops, exactly one Nemo message with the response text is appended, and the
audio is played when non-empty. -/
def handleResponse (st : AppState) (r : NemoReply) : AppState :=
  if r.text = "" then st
  else if st.processed = some r.text then st
  else
    { processed := some r.text
      transcript := st.transcript ++ [{ role := ChatRole.nemo, content := r.text }]
      played := if r.audio = "" then st.played else st.played ++ [r.audio]
      isTyping := false }

/-- Claim C8: a response with empty text, or with the same text as the
previously processed response, changes nothing — no transcript entry, no
audio; otherwise exactly one Nemo message carrying the response text is
appended; hence two consecutive responses with identical text produce a
single transcript entry. -/
theorem app_response_dedup (st : AppState) (r : NemoReply) :
    ((r.text = "" ∨ st.processed = some r.text) → handleResponse st r = st)
    ∧ (r.text ≠ "" → st.processed ≠ some r.text →
        (handleResponse st r).transcript
          = st.transcript ++ [{ role := ChatRole.nemo, content := r.text }])
    ∧ (handleResponse (handleResponse st r) r).transcript
        = (handleResponse st r).transcript := by
  refine ⟨?_, ?_, ?_⟩
  · rintro (he | hp)
    · simp [handleResponse, he]
    · by_cases he : r.text = "" <;> simp [handleResponse, he, hp]
  · intro he hp
    simp [handleResponse, he, hp]
  · by_cases he : r.text = ""
    · simp [handleResponse, he]
    · by_cases hp : st.processed = some r.text
      · simp [handleResponse, he, hp]
      · simp [handleResponse, he, hp]

/-- A fresh App state with one prior user message. -/
def appSt0 : AppState :=
  { processed := none
    transcript := [{ role := ChatRole.user, content := "hi" }]
    played := []
    isTyping := true }

/-- A backend reply carrying text and audio. -/
def reply0 : NemoReply := { audio := "QUJD", text := "hello", visemes := [] }

theorem app_response_dedup_witness :
    (handleResponse appSt0 reply0).transcript
        = appSt0.transcript ++ [{ role := ChatRole.nemo, content := "hello" }]
    ∧ (handleResponse (handleResponse appSt0 reply0) reply0).transcript
        = (handleResponse appSt0 reply0).transcript :=
  ⟨(app_response_dedup appSt0 reply0).2.1 (by decide) (by decide),
   (app_response_dedup appSt0 reply0).2.2⟩

/-! ## InputBar sending (InputBar.tsx handleSend) -/

/-- JavaScript `String.prototype.trim`: strip whitespace from both ends.
Written over the character list so that it is kernel-evaluable. -/
def jsTrim (s : String) : String :=
  String.mk (((s.data.dropWhile Char.isWhitespace).reverse.dropWhile
    Char.isWhitespace).reverse)

/-- `handleSend` in InputBar.tsx: trim the input; when the trimmed text is
non-empty and the bar is not disabled, invoke `onSend` with the trimmed
text and reset the field to the empty string; otherwise do nothing.  The
first component is the text given to `onSend` (if invoked), the second the
input field afterwards. -/
def inputBar_handleSend (input : String) (disabled : Bool) :
    Option String × String :=
  let trimmed := jsTrim input
  if trimmed ≠ "" ∧ disabled = false then (some trimmed, "") else (none, input)

/-- Claim C9: a send invokes `onSend` exactly when the trimmed input is
non-empty and the bar is not disabled; when it fires, `onSend` receives the
trimmed text and the field is reset; a whitespace-only input never reaches
the backend. -/
theorem input_send_iff (input : String) (disabled : Bool) :
    ((inputBar_handleSend input disabled).1.isSome
        ↔ (jsTrim input ≠ "" ∧ disabled = false))
    ∧ (∀ t, (inputBar_handleSend input disabled).1 = some t →
        t = jsTrim input ∧ (inputBar_handleSend input disabled).2 = "")
    ∧ (jsTrim input = "" → inputBar_handleSend input disabled = (none, input)) := by
  refine ⟨?_, ?_, ?_⟩
  · by_cases hc : jsTrim input ≠ "" ∧ disabled = false
    · simp [inputBar_handleSend, hc]
    · simp only [inputBar_handleSend, if_neg hc]
      simpa using hc
  · intro t ht
    by_cases hc : jsTrim input ≠ "" ∧ disabled = false
    · simp only [inputBar_handleSend, if_pos hc] at ht ⊢
      refine ⟨(Option.some_inj.mp ht).symm, ?_⟩
      trivial
    · simp [inputBar_handleSend, hc] at ht
  · intro he
    have hc : ¬ (jsTrim input ≠ "" ∧ disabled = false) := by
      intro hcon
      exact hcon.1 he
    simp [inputBar_handleSend, hc]

theorem input_send_iff_witness :
    (((inputBar_handleSend "  hi  " false).1.isSome
        ↔ (jsTrim "  hi  " ≠ "" ∧ false = false))
      ∧ ("hi" = jsTrim "  hi  " ∧ (inputBar_handleSend "  hi  " false).2 = ""))
    ∧ inputBar_handleSend "   " true = (none, "   ") :=
  ⟨⟨(input_send_iff "  hi  " false).1,
    (input_send_iff "  hi  " false).2.1 "hi" (by decide)⟩,
   (input_send_iff "   " true).2.2 (by decide)⟩

/-! ## WebSocket reconnection (useNemoSocket.ts) -/

/-- `MAX_RECONNECT_ATTEMPTS` from useNemoSocket.ts. -/
def MAX_RECONNECT_ATTEMPTS : Nat := 5

/-- `RECONNECT_DELAY` (milliseconds) from useNemoSocket.ts. -/
def RECONNECT_DELAY : Nat := 3000

/-- The hook state touched by the close handler: the reconnect-attempts
ref, the error state, and the log of scheduled reconnect delays. -/
structure SocketState where
  reconnectAttempts : Nat
  errorMsg : Option String
  scheduled : List Nat
deriving DecidableEq, Repr

/-- The `ws.onclose` handler: while fewer than MAX_RECONNECT_ATTEMPTS
attempts have been made, increment the counter and schedule a reconnect
after RECONNECT_DELAY; otherwise set the connection-failure error and
schedule nothing. -/
def onClose (st : SocketState) : SocketState :=
  if st.reconnectAttempts < MAX_RECONNECT_ATTEMPTS then
    { st with reconnectAttempts := st.reconnectAttempts + 1
              scheduled := st.scheduled ++ [RECONNECT_DELAY] }
  else
    { st with errorMsg := some "Unable to connect to Nemo. Is the server running?" }

/-- The `ws.onopen` handler resets the attempt counter and clears the
error. -/
def onOpen (st : SocketState) : SocketState :=
  { st with reconnectAttempts := 0, errorMsg := none }

/-- The hook's initial state. -/
def initialSocketState : SocketState :=
  { reconnectAttempts := 0, errorMsg := none, scheduled := [] }

/-- The state after a run of `n` consecutive disconnections with no
successful open in between. -/
def closes : Nat → SocketState
  | 0 => initialSocketState
  | n + 1 => onClose (closes n)

/-- Claim C10: over any run of consecutive disconnections the hook
schedules at most MAX_RECONNECT_ATTEMPTS (5) reconnection attempts, each
with the fixed 3000 ms delay; once the limit is passed the error state is
set to the connection-failure message and no further attempt is ever
scheduled, so reconnection terminates. -/
theorem reconnect_terminates (n : Nat) :
    (closes n).scheduled
        = List.replicate (min n MAX_RECONNECT_ATTEMPTS) RECONNECT_DELAY
    ∧ (closes n).reconnectAttempts = min n MAX_RECONNECT_ATTEMPTS
    ∧ (MAX_RECONNECT_ATTEMPTS < n →
        (closes n).errorMsg = some "Unable to connect to Nemo. Is the server running?") := by
  induction n with
  | zero => simp [closes, initialSocketState]
  | succ k ih =>
      obtain ⟨ihs, iha, ihe⟩ := ih
      by_cases hk : k < MAX_RECONNECT_ATTEMPTS
      · have hlt : (closes k).reconnectAttempts < MAX_RECONNECT_ATTEMPTS := by
          rw [iha]; omega
        refine ⟨?_, ?_, ?_⟩
        · rw [closes, onClose, if_pos hlt]
          simp only [ihs]
          rw [← List.replicate_succ']
          congr 1
          omega
        · rw [closes, onClose, if_pos hlt]
          simp only [iha]
          omega
        · intro hgt
          exfalso
          simp only [MAX_RECONNECT_ATTEMPTS] at hk hgt
          omega
      · have hge : ¬ (closes k).reconnectAttempts < MAX_RECONNECT_ATTEMPTS := by
          rw [iha]; omega
        refine ⟨?_, ?_, ?_⟩
        · rw [closes, onClose, if_neg hge]
          simp only [ihs]
          congr 1
          omega
        · rw [closes, onClose, if_neg hge]
          simp only [iha]
          omega
        · intro _
          rw [closes, onClose, if_neg hge]

theorem reconnect_terminates_witness :
    (closes 7).scheduled
        = List.replicate (min 7 MAX_RECONNECT_ATTEMPTS) RECONNECT_DELAY
    ∧ (closes 7).errorMsg = some "Unable to connect to Nemo. Is the server running?" :=
  ⟨(reconnect_terminates 7).1, (reconnect_terminates 7).2.2 (by decide)⟩

end Spec2Proof
